import Mathlib

/-!
Shallow embedding of the Stagehand media-ingestion bot's two core modules,
`src/queue/queueManager.js` and `src/utils/mediaCache.js`, together with
theorems settling the frozen claims about them.

Conventions of the embedding:
* JavaScript strings are Lean `String`s; helper functions mirror the exact
  library semantics used by the source (`path.extname`, `String.includes`,
  `String.toLowerCase`, `String.startsWith`, `Array.splice`).
* JavaScript numbers appearing as queue indices are `Int` (they may be
  negative); the items-per-interval count is `Rat` (it may be fractional).
* Fallible operations return `Except`/`Option`; a thrown-and-caught error
  becomes the corresponding early-return value, as in the source.
* The filesystem is explicit state: a queue state carries the primary and
  backup queue files, the media cache carries an association list from file
  path to mtime (milliseconds).
* External library calls with environment-dependent results (`cron.validate`,
  the MD5 hash of `crypto-js`, HTTP responses, the ffmpeg encoder) are
  parameters of the operations, so every definition stays executable.
-/

namespace Stagehand

/-! ## String helpers mirroring the JavaScript standard library -/

/-- Model of `String.prototype.toLowerCase` (source strings are ASCII). -/
def lowerStr (s : String) : String := String.mk (s.toList.map Char.toLower)

/-- Index of the last occurrence of a character in a character list. -/
def lastIdxOf (c : Char) : List Char → Option Nat
  | [] => none
  | a :: rest =>
    match lastIdxOf c rest with
    | some i => some (i + 1)
    | none => if a = c then some 0 else none

/-- The final path segment: everything after the last `/` (model of Node's
`path.basename` on the paths used here). -/
def basenameStr (p : String) : String :=
  String.mk ((p.toList.reverse.takeWhile (fun c => c ≠ '/')).reverse)

/-- Model of Node's `path.extname`: the part of the final path segment from
its last dot, or the empty string when the segment has no dot, starts with
its only dot, or is the special name `..`. -/
def jsExtname (p : String) : String :=
  let base := basenameStr p
  if base = ".." then ""
  else
    match lastIdxOf '.' base.toList with
    | none => ""
    | some 0 => ""
    | some i => String.mk (base.toList.drop i)

/-- Whether `pat` occurs as a contiguous run inside `l`. -/
def listContains (pat : List Char) : List Char → Bool
  | [] => pat.isEmpty
  | c :: rest => pat.isPrefixOf (c :: rest) || listContains pat rest

/-- Model of `String.prototype.includes`. -/
def jsIncludes (s sub : String) : Bool := listContains sub.toList s.toList

/-- Model of `String.prototype.startsWith`. -/
def jsStartsWith (s pre : String) : Bool := pre.toList.isPrefixOf s.toList

/-! ## Queue manager data model (`src/queue/queueManager.js`) -/

/-- One queue item. `payload` abstracts the scraped metadata fields (title,
urls, id, timestamp, ...) which the claims never inspect; `postedTo` is the
per-service delivery map, `none` when the persisted item predates service
tracking (`!item.postedTo` in the source). -/
structure QueueItem where
  payload : Nat
  postedTo : Option (List (String × Bool))
deriving DecidableEq, Repr

/-- Reading `postedTo[s]` from the delivery map object (keys are unique,
as in a JavaScript object). -/
def lookupFlag : List (String × Bool) → String → Option Bool
  | [], _ => none
  | e :: rest, s => if e.1 == s then some e.2 else lookupFlag rest s

/-- Writing `postedTo[service] = true` on the delivery map object: update
the existing key or add it. -/
def setFlag : List (String × Bool) → String → List (String × Bool)
  | [], s => [(s, true)]
  | e :: rest, s => if e.1 == s then (e.1, true) :: rest else e :: setFlag rest s

/-- Model of `this.postServices.every(s => item.postedTo[s] === true)`; an
absent map or an absent key reads as `undefined`, which is not `=== true`. -/
def allPostedB (services : List String) (item : QueueItem) : Bool :=
  services.all (fun s => lookupFlag (item.postedTo.getD []) s == some true)

/-- Result of `fs.readJson` on a file that parses: either the expected
`\x7b queue: [...] \x7d` shape (`content && Array.isArray(content.queue)`), or any
other JSON value. -/
inductive JsonVal where
  | wellFormed (items : List QueueItem)
  | malformed
deriving DecidableEq, Repr

/-- On-disk state of one queue file: missing, unparseable (so that
`fs.readJson` throws), or parseable JSON. -/
inductive DiskFile where
  | absent
  | corrupt
  | json (v : JsonVal)
deriving DecidableEq, Repr

/-- State of the `QueueManager` singleton: the in-memory queue, the primary
and backup queue files, the cron schedule string, the scheduled task
(`none` when no task object exists, `some running?` otherwise), and the
items-per-tick count. -/
structure QMState where
  queue : List QueueItem
  primary : DiskFile
  backup : DiskFile
  cronSchedule : String
  scheduledTask : Option Bool
  imagesPerInterval : Rat
deriving DecidableEq, Repr

/-- Model of `saveQueueToDisk` (success path): writes the backup file, then
replaces the primary through a temp file and atomic rename; both files end
up holding the current queue wrapped in the `\x7b queue: [...] \x7d` document. -/
def saveQueueToDisk (st : QMState) : QMState :=
  { st with
    backup := DiskFile.json (JsonVal.wellFormed st.queue)
    primary := DiskFile.json (JsonVal.wellFormed st.queue) }

/-- Model of `loadQueueFromDisk`. The source adopts the primary when it
parses to the expected shape; when `fs.readJson` throws on the primary, it
tries the backup and, on success, adopts it and rewrites the files; in every
other case (primary absent, primary parses but has the wrong shape, backup
missing or unusable) it falls through to an empty queue and persists it.
Note that a wrong-shape primary does not throw, so the backup branch is
never reached from it. -/
def loadQueueFromDisk (st : QMState) : QMState :=
  match st.primary with
  | DiskFile.json (JsonVal.wellFormed items) => { st with queue := items }
  | DiskFile.json JsonVal.malformed => saveQueueToDisk { st with queue := [] }
  | DiskFile.corrupt =>
    match st.backup with
    | DiskFile.json (JsonVal.wellFormed items) => saveQueueToDisk { st with queue := items }
    | _ => saveQueueToDisk { st with queue := [] }
  | DiskFile.absent => saveQueueToDisk { st with queue := [] }

/-- Whether a disk file holds a well-formed queue document. -/
def isWellFormedFile : DiskFile → Bool
  | DiskFile.json (JsonVal.wellFormed _) => true
  | _ => false

/-- The item at `index` after `postedTo[service] = true` (initializing the
map when absent), as computed by `markPostedByService`; the default is
irrelevant because callers establish `index < queue.length`. -/
def itemAfterMark (st : QMState) (index : Nat) (service : String) : QueueItem :=
  let item := (st.queue.get? index).getD { payload := 0, postedTo := none }
  { item with postedTo := some (setFlag (item.postedTo.getD []) service) }

/-- Model of `markPostedByService(index, service)`. Guards mirror the
source: empty queue or `index >= length` returns `false`; an unknown
service returns `false`; a negative index survives both guards but makes
`queue[index]` `undefined`, so the following property access throws and the
surrounding catch returns `false`. Otherwise the flag is set, the item is
removed when every configured service now reads `true`, and the queue is
persisted. -/
def markPostedByService (services : List String) (st : QMState) (index : Int)
    (service : String) : Bool × QMState :=
  if st.queue.length = 0 ∨ (st.queue.length : Int) ≤ index then (false, st)
  else if service ∈ services then
    if index < 0 then (false, st)
    else
      match st.queue.get? index.toNat with
      | none => (false, st)
      | some item =>
        let item' : QueueItem :=
          { item with postedTo := some (setFlag (item.postedTo.getD []) service) }
        let q1 := st.queue.set index.toNat item'
        if allPostedB services item' then
          (true, saveQueueToDisk { st with queue := q1.eraseIdx index.toNat })
        else
          (true, saveQueueToDisk { st with queue := q1 })
  else (false, st)

/-- Model of `hasBeenPostedByService(index, service)`: guarded read of
`item.postedTo && item.postedTo[service] === true`. -/
def hasBeenPostedByService (st : QMState) (index : Nat) (service : String) : Bool :=
  if st.queue.length = 0 ∨ st.queue.length ≤ index then false
  else
    match st.queue.get? index with
    | none => false
    | some item =>
      match item.postedTo with
      | none => false
      | some m => lookupFlag m service == some true

/-- Start index used by `Array.prototype.splice(start, 1)`: negative values
count from the end and clamp at zero, positive ones clamp at the length. -/
def spliceStart (len : Int) (start : Int) : Nat :=
  (if start < 0 then max (len + start) 0 else min start len).toNat

/-- Model of `removeFromQueue(index)`: returns `null` when the queue is
empty or `index >= length`; otherwise `splice(index, 1)[0]` removes one item
(negative indices count from the end) and the queue is persisted. -/
def removeFromQueue (st : QMState) (index : Int) : Option QueueItem × QMState :=
  if st.queue.length = 0 ∨ (st.queue.length : Int) ≤ index then (none, st)
  else
    let i := spliceStart st.queue.length index
    (st.queue.get? i, saveQueueToDisk { st with queue := st.queue.eraseIdx i })

/-- Model of `setCronSchedule(schedule)`: the running task (if any) is
stopped first, then the expression is validated (`cron.validate` is the
`validate` parameter); only a valid expression updates the stored schedule,
and in neither case is the task restarted. -/
def setCronSchedule (validate : String → Bool) (st : QMState) (schedule : String) :
    Bool × QMState :=
  let st1 := { st with scheduledTask := st.scheduledTask.map (fun _ => false) }
  if validate schedule then (true, { st1 with cronSchedule := schedule })
  else (false, st1)

/-- A JavaScript value passed to `setImagesPerInterval`; numeric values are
modelled as rationals (`NaN`/`Infinity` are outside the model and not needed
by the claims). -/
inductive JSVal where
  | num (q : Rat)
  | str (s : String)
  | boolean (b : Bool)
  | null
  | undef
deriving DecidableEq, Repr

/-- Model of `setImagesPerInterval(count)`: rejects exactly the inputs with
`typeof count !== 'number' || count < 1`; any number at least 1 is stored,
integer or not. -/
def setImagesPerInterval (st : QMState) (count : JSVal) : Bool × QMState :=
  match count with
  | JSVal.num q => if q < 1 then (false, st) else (true, { st with imagesPerInterval := q })
  | _ => (false, st)

/-! ## Scheduler tick (`startScheduler` callback body) -/

/-- Inner per-service loop of one outer scheduler iteration: for each
configured service in order, skip it when the current front item already
reads posted or no post function exists; otherwise invoke the post function
on the captured front item and, on success, mark index 0 posted (which may
remove the item). Returns the threaded state and whether at least one
service posted. -/
def runServices (allServices : List String) (posts : String → Option (QueueItem → Bool))
    (item : QueueItem) : List String → QMState → QMState × Bool
  | [], st => (st, false)
  | s :: rest, st =>
    if hasBeenPostedByService st 0 s then runServices allServices posts item rest st
    else
      match posts s with
      | none => runServices allServices posts item rest st
      | some f =>
        if f item then
          let st' := (markPostedByService allServices st 0 s).2
          let r := runServices allServices posts item rest st'
          (r.1, true)
        else runServices allServices posts item rest st

/-- Outer loop of one scheduler tick with remaining fuel `n`
(`for i < imagesPerInterval`): stop on an empty queue; otherwise run the
services over the front item and, when no service posted, stop the batch
early. Returns the final state and the number of front items processed. -/
def tickLoop (services : List String) (posts : String → Option (QueueItem → Bool)) :
    Nat → QMState → QMState × Nat
  | 0, st => (st, 0)
  | Nat.succ n, st =>
    match st.queue.get? 0 with
    | none => (st, 0)
    | some item =>
      let r := runServices services posts item services st
      if r.2 then
        let r2 := tickLoop services posts n r.1
        (r2.1, r2.2 + 1)
      else (r.1, 1)

/-- One scheduler tick configured for `n` items per tick. -/
def schedulerTick (services : List String) (posts : String → Option (QueueItem → Bool))
    (n : Nat) (st : QMState) : QMState × Nat :=
  tickLoop services posts n st

/-! ## Demonstration states used by witnesses and counterexamples -/

/-- A minimal queue-manager state. -/
def demoState : QMState :=
  { queue := []
    primary := DiskFile.absent
    backup := DiskFile.absent
    cronSchedule := "0 */1 * * *"
    scheduledTask := none
    imagesPerInterval := 1 }

/-- A queue item whose telegram delivery is still pending. -/
def demoItem (k : Nat) : QueueItem :=
  { payload := k, postedTo := some [("telegram", false)] }

/-- A state holding two pending items. -/
def demoQState : QMState :=
  { demoState with queue := [demoItem 0, demoItem 1] }

/-- A state whose scheduled task exists and is running. -/
def demoRunning : QMState := { demoState with scheduledTask := some true }

/-- A state with one item already delivered to discord but not telegram. -/
def demoC2State : QMState :=
  { demoState with
    queue := [{ payload := 5, postedTo := some [("telegram", false), ("discord", true)] }] }

/-- Post functions where telegram always fails and no other service has a
post function. -/
def demoPosts : String → Option (QueueItem → Bool) :=
  fun s => if s = "telegram" then some (fun _ => false) else none

/-! ## Media cache data model (`src/utils/mediaCache.js`) -/

/-- Milliseconds in a day. -/
def msPerDay : Int := 24 * 60 * 60 * 1000

/-- The cache age limit `maxCacheAgeDays * 24 * 60 * 60 * 1000`. -/
def maxAgeMs (maxCacheAgeDays : Int) : Int := maxCacheAgeDays * msPerDay

/-- The cache filesystem: an association list from file path to mtime in
milliseconds; the head shadows later entries, so prepending overwrites. -/
def fsGet : List (String × Int) → String → Option Int
  | [], _ => none
  | e :: rest, p => if e.1 == p then some e.2 else fsGet rest p

/-- Model of `isValidCacheFile(filePath)`: the file exists and
`Date.now() - mtimeMs <= maxAgeMs`. -/
def isValidCacheFile (fs : List (String × Int)) (now : Int) (maxCacheAgeDays : Int)
    (p : String) : Bool :=
  match fsGet fs p with
  | none => false
  | some mtime => decide (now - mtime ≤ maxAgeMs maxCacheAgeDays)

/-- Model of the `cleanDir` helper of `cleanupCache`: every file with
`now - mtimeMs > maxAgeMs` is removed, the rest of the directory listing is
kept. -/
def cleanDir (now maxCacheAgeDays : Int) (files : List (String × Int)) :
    List (String × Int) :=
  files.filter (fun f => !(decide (maxAgeMs maxCacheAgeDays < now - f.2)))

/-- The three managed cache directories. -/
structure CacheDirs where
  images : List (String × Int)
  videos : List (String × Int)
  transcoded : List (String × Int)
deriving DecidableEq, Repr

/-- Model of `cleanupCache`: sweeps each managed directory independently. -/
def cleanupCache (now maxCacheAgeDays : Int) (dirs : CacheDirs) : CacheDirs :=
  { images := cleanDir now maxCacheAgeDays dirs.images
    videos := cleanDir now maxCacheAgeDays dirs.videos
    transcoded := cleanDir now maxCacheAgeDays dirs.transcoded }

/-- Model of `getFileExtension(url, contentType)`: the lowercased URL
extension when longer than a lone dot; otherwise the content-type table,
then the `image/` and `video/` category fallbacks, then `.bin`. -/
def getFileExtension (url : String) (contentType : Option String) : String :=
  let urlExt := lowerStr (jsExtname url)
  if 1 < urlExt.length then urlExt
  else
    match contentType with
    | none => ".bin"
    | some ct0 =>
      let c := lowerStr ct0
      if c = "image/jpeg" then ".jpg"
      else if c = "image/jpg" then ".jpg"
      else if c = "image/png" then ".png"
      else if c = "image/gif" then ".gif"
      else if c = "image/webp" then ".webp"
      else if c = "video/mp4" then ".mp4"
      else if c = "video/webm" then ".webm"
      else if jsStartsWith c "image/" then ".jpg"
      else if jsStartsWith c "video/" then ".mp4"
      else ".bin"

/-- Suffix of `l` after the first occurrence of `pat`, when `pat` occurs. -/
def firstMatchRest (pat : List Char) : List Char → Option (List Char)
  | [] => if pat.isEmpty then some [] else none
  | c :: rest =>
    if pat.isPrefixOf (c :: rest) then some ((c :: rest).drop pat.length)
    else firstMatchRest pat rest

/-- Model of the `/bluesky.*video/i` regular expression test on an already
lowercased string: some occurrence of `bluesky` is followed by `video`. -/
def blueskyVideoRe (s : String) : Bool :=
  match firstMatchRest "bluesky".toList s.toList with
  | some rest => listContains "video".toList rest
  | none => false

/-- Model of `isVideoUrl(url, contentType)`: known video URL extension,
`video/` content type, or one of the case-insensitive URL patterns
`/video/`, `.mp4`, `.webm`, `bluesky.*video`. -/
def isVideoUrl (url : String) (contentType : Option String) : Bool :=
  let urlExt := lowerStr (jsExtname url)
  [".mp4", ".webm", ".mov", ".avi", ".mkv"].contains urlExt
  || (match contentType with
      | some c => jsStartsWith (lowerStr c) "video/"
      | none => false)
  || (let ul := lowerStr url
      jsIncludes ul "/video/" || jsIncludes ul ".mp4" || jsIncludes ul ".webm"
        || blueskyVideoRe ul)

/-- Outcome of the streaming GET request of `downloadMedia`: the request
fails before a response body exists, or a body stream starts (carrying an
optional `content-type` header) and then either completes or errors
mid-transfer (network error or the 50 MB limit enforced on the stream). -/
inductive GetOutcome where
  | failStart
  | stream (ctype : Option String) (ok : Bool)
deriving DecidableEq, Repr

/-- Environment of the media cache: the HEAD probe result (`none` when the
probe fails), the GET outcome, and whether the ffmpeg encoder succeeds. -/
structure NetEnv where
  headResult : String → Option String
  getResult : String → GetOutcome
  transcodeOk : String → Bool

/-- Count of external effects performed by one operation. -/
structure Trace where
  headReqs : Nat
  getReqs : Nat
  transcodeRuns : Nat
deriving DecidableEq, Repr

/-- Componentwise sum of two effect counts. -/
def Trace.add (a b : Trace) : Trace :=
  { headReqs := a.headReqs + b.headReqs
    getReqs := a.getReqs + b.getReqs
    transcodeRuns := a.transcodeRuns + b.transcodeRuns }

/-- Result record of `downloadMedia`. -/
structure DownloadResult where
  filePath : String
  contentType : Option String
  isVideo : Bool
deriving DecidableEq, Repr

/-- The straight-line prelude of `downloadMedia` (everything computed
before the cache check touches the filesystem): the resolved content type,
video classification, number of probe requests issued, and the target cache
path `<kind dir>/<hash><ext>`. -/
structure DownloadTarget where
  filePath : String
  headCT : Option String
  isVideo : Bool
  headReqs : Nat
deriving DecidableEq, Repr

/-- Prelude computation of `downloadMedia(url, isVideo)`: Bluesky URLs skip
the HEAD probe and infer the content type from the URL pattern (a
`video.bsky.app` URL also forces the video flag); other URLs issue the
probe. The classification falls back to `isVideoUrl` when the flag is not
already set, and the target path combines the kind directory, the MD5 hash
and the resolved extension. -/
def downloadTarget (hashFn : String → String) (env : NetEnv) (url : String)
    (isVideoHint : Bool) : DownloadTarget :=
  let isBluesky := jsIncludes url "bsky.social" || jsIncludes url "video.bsky.app"
  let ct0 : Option String :=
    if isBluesky then
      if jsIncludes url "video.bsky.app" then some "video/mp4"
      else if jsIncludes url "getBlob" then some "image/jpeg"
      else none
    else env.headResult url
  let isVideo1 : Bool := isVideoHint || (isBluesky && jsIncludes url "video.bsky.app")
  let isVideo : Bool := isVideo1 || isVideoUrl url ct0
  let fname := hashFn url ++ getFileExtension url ct0
  { filePath := (if isVideo then "videos" else "images") ++ "/" ++ fname
    headCT := ct0
    isVideo := isVideo
    headReqs := if isBluesky then 0 else 1 }

/-- Model of `downloadMedia(url, isVideo)`. After the prelude, a valid
cached file at the target path is returned without a GET. Otherwise the
body is requested and streamed directly into a write stream opened at the
final path, so a stream that starts and then errors leaves the partially
written file (mtime `now`) in the cache while the promise rejects; only a
request that fails before a body exists creates no file. A `content-type`
header of the GET response fills in a content type the probe did not
supply (the target path is already fixed at that point). -/
def downloadMedia (hashFn : String → String) (env : NetEnv) (maxCacheAgeDays : Int)
    (now : Int) (fs : List (String × Int)) (url : String) (isVideoHint : Bool) :
    Except String DownloadResult × List (String × Int) × Trace :=
  let pre := downloadTarget hashFn env url isVideoHint
  if isValidCacheFile fs now maxCacheAgeDays pre.filePath then
    (Except.ok { filePath := pre.filePath, contentType := pre.headCT, isVideo := pre.isVideo },
      fs, { headReqs := pre.headReqs, getReqs := 0, transcodeRuns := 0 })
  else
    match env.getResult url with
    | GetOutcome.failStart =>
      (Except.error "Failed to download media", fs,
        { headReqs := pre.headReqs, getReqs := 1, transcodeRuns := 0 })
    | GetOutcome.stream gct ok =>
      let ct1 := match pre.headCT with
        | none => gct
        | some c => some c
      let fs' := (pre.filePath, now) :: fs
      if ok then
        (Except.ok { filePath := pre.filePath, contentType := ct1, isVideo := pre.isVideo },
          fs', { headReqs := pre.headReqs, getReqs := 1, transcodeRuns := 0 })
      else
        (Except.error "Failed to download media", fs',
          { headReqs := pre.headReqs, getReqs := 1, transcodeRuns := 0 })

/-- Output path of `transcodeVideo`: the input's base name with its
extension replaced by `.mp4`, inside the transcoded directory. -/
def transcodeOut (inputPath : String) : String :=
  let inputFilename := basenameStr inputPath
  let stem := String.mk
    (inputFilename.toList.take (inputFilename.toList.length - (jsExtname inputFilename).length))
  "transcoded" ++ "/" ++ (stem ++ ".mp4")

/-- Model of `transcodeVideo(inputPath)`: a valid cached output is returned
without running the encoder, otherwise ffmpeg runs and on success the
output file appears with mtime `now`. -/
def transcodeVideo (env : NetEnv) (maxCacheAgeDays : Int) (now : Int)
    (fs : List (String × Int)) (inputPath : String) :
    Except String String × List (String × Int) × Trace :=
  let outPath := transcodeOut inputPath
  if isValidCacheFile fs now maxCacheAgeDays outPath then
    (Except.ok outPath, fs, { headReqs := 0, getReqs := 0, transcodeRuns := 0 })
  else if env.transcodeOk inputPath then
    (Except.ok outPath, (outPath, now) :: fs,
      { headReqs := 0, getReqs := 0, transcodeRuns := 1 })
  else
    (Except.error "Failed to transcode video", fs,
      { headReqs := 0, getReqs := 0, transcodeRuns := 1 })

/-- Result record of `processMediaUrl`. -/
structure MediaResult where
  localPath : String
  isVideo : Bool
  contentType : Option String
deriving DecidableEq, Repr

/-- Model of `processMediaUrl(url, isVideo)`: download (or hit the cache),
then transcode when classified as video, returning the transcoded path for
videos and the cached path for images. -/
def processMediaUrl (hashFn : String → String) (env : NetEnv) (maxCacheAgeDays : Int)
    (now : Int) (fs : List (String × Int)) (url : String) (isVideoHint : Bool) :
    Except String MediaResult × List (String × Int) × Trace :=
  match downloadMedia hashFn env maxCacheAgeDays now fs url isVideoHint with
  | (Except.error e, fs1, t1) => (Except.error e, fs1, t1)
  | (Except.ok r, fs1, t1) =>
    if r.isVideo then
      match transcodeVideo env maxCacheAgeDays now fs1 r.filePath with
      | (Except.ok p, fs2, t2) =>
        (Except.ok { localPath := p, isVideo := true, contentType := r.contentType },
          fs2, t1.add t2)
      | (Except.error e, fs2, t2) => (Except.error e, fs2, t1.add t2)
    else
      (Except.ok { localPath := r.filePath, isVideo := false, contentType := r.contentType },
        fs1, t1)

/-! ## Definitions written from the spec's words, for refinement claims -/

/-- Extension resolution exactly as the spec words it: prefer the locator's
own extension when present and non-empty; otherwise map the six known
content types to their canonical extension; otherwise `.jpg` for any other
`image/*`, `.mp4` for any other `video/*`, and `.bin` when the content type
is absent or unrecognized. Stated over the same lowercased signals the
resolver reads; it never consults the video-classification heuristics. -/
def specResolveExtension (url : String) (contentType : Option String) : String :=
  let urlExt := lowerStr (jsExtname url)
  if 1 < urlExt.length then urlExt
  else
    match contentType with
    | none => ".bin"
    | some ct0 =>
      let c := lowerStr ct0
      if c = "image/jpeg" then ".jpg"
      else if c = "image/png" then ".png"
      else if c = "image/gif" then ".gif"
      else if c = "image/webp" then ".webp"
      else if c = "video/mp4" then ".mp4"
      else if c = "video/webm" then ".webm"
      else if jsStartsWith c "image/" then ".jpg"
      else if jsStartsWith c "video/" then ".mp4"
      else ".bin"

/-- A fixed environment where the HEAD probe reports `image/png` and the
GET body streams to completion. -/
def envOk : NetEnv :=
  { headResult := fun _ => some "image/png"
    getResult := fun _ => GetOutcome.stream none true
    transcodeOk := fun _ => true }

/-- A fixed environment where the HEAD probe reports `image/png` and the
GET body stream starts and then errors mid-transfer. -/
def envStreamFail : NetEnv :=
  { headResult := fun _ => some "image/png"
    getResult := fun _ => GetOutcome.stream none false
    transcodeOk := fun _ => true }

/-! ## Helper lemmas -/

theorem mem_cleanDir {now d : Int} {files : List (String × Int)} {pr : String} {m : Int} :
    (pr, m) ∈ cleanDir now d files ↔ (pr, m) ∈ files ∧ now - m ≤ maxAgeMs d := by
  simp [cleanDir, List.mem_filter, not_lt]

theorem isValidCacheFile_iff (fs : List (String × Int)) (now d : Int) (p : String) :
    isValidCacheFile fs now d p = true ↔ ∃ m, fsGet fs p = some m ∧ now - m ≤ maxAgeMs d := by
  unfold isValidCacheFile
  cases h : fsGet fs p <;> simp [h]

/-! ## Claim C1: queue load recovery -/

/-- Claim C1, counterexample. The claim asserts that a structural failure
of the primary (content parses but is not of the `\x7b queue: array \x7d` shape)
triggers the backup attempt and that a well-formed backup is adopted. In
the code the shape-check failure does not throw, so the backup branch is
unreachable from it: with a malformed primary and a well-formed backup
holding one item, `loadQueueFromDisk` initializes an empty queue instead
of adopting the backup. -/
theorem C1_structural_failure_skips_backup :
    (loadQueueFromDisk
      { demoState with
          primary := DiskFile.json JsonVal.malformed
          backup := DiskFile.json (JsonVal.wellFormed [demoItem 7]) }).queue = [] ∧
    ([] : List QueueItem) ≠ [demoItem 7] := by
  constructor
  · decide
  · decide

/-- Claim C1, amended: `loadQueueFromDisk` adopts a well-formed primary as
is; only a primary read that throws (unparseable file) triggers the backup
attempt, and a well-formed backup is then adopted and the primary rewritten
from it; in every other situation (primary absent, primary parsing to the
wrong shape — even with a well-formed backup available — or backup
unusable) the queue is initialized empty and persisted. -/
theorem C1_load_recovery_amended (st : QMState) :
    (∀ items, st.primary = DiskFile.json (JsonVal.wellFormed items) →
      loadQueueFromDisk st = { st with queue := items }) ∧
    (∀ items, st.primary = DiskFile.corrupt →
      st.backup = DiskFile.json (JsonVal.wellFormed items) →
      loadQueueFromDisk st = saveQueueToDisk { st with queue := items } ∧
      (loadQueueFromDisk st).primary = DiskFile.json (JsonVal.wellFormed items)) ∧
    (st.primary = DiskFile.corrupt → isWellFormedFile st.backup = false →
      loadQueueFromDisk st = saveQueueToDisk { st with queue := [] }) ∧
    (st.primary = DiskFile.json JsonVal.malformed →
      loadQueueFromDisk st = saveQueueToDisk { st with queue := [] }) ∧
    (st.primary = DiskFile.absent →
      loadQueueFromDisk st = saveQueueToDisk { st with queue := [] }) := by
  refine ⟨?_, ?_, ?_, ?_, ?_⟩
  · intro items h
    simp [loadQueueFromDisk, h]
  · intro items h hb
    constructor
    · simp [loadQueueFromDisk, h, hb]
    · simp [loadQueueFromDisk, h, hb, saveQueueToDisk]
  · intro h hb
    cases hbk : st.backup with
    | absent => simp [loadQueueFromDisk, h, hbk]
    | corrupt => simp [loadQueueFromDisk, h, hbk]
    | json v =>
      cases v with
      | wellFormed items =>
        rw [hbk] at hb
        simp [isWellFormedFile] at hb
      | malformed => simp [loadQueueFromDisk, h, hbk]
  · intro h
    simp [loadQueueFromDisk, h]
  · intro h
    simp [loadQueueFromDisk, h]

/-- Claim C1, witness: concrete backup recovery after an unparseable
primary, with the primary rewritten to a valid file. -/
theorem C1_witness :
    (loadQueueFromDisk
      { demoState with
          primary := DiskFile.corrupt
          backup := DiskFile.json (JsonVal.wellFormed [demoItem 7]) }).queue = [demoItem 7] ∧
    (loadQueueFromDisk
      { demoState with
          primary := DiskFile.corrupt
          backup := DiskFile.json (JsonVal.wellFormed [demoItem 7]) }).primary =
      DiskFile.json (JsonVal.wellFormed [demoItem 7]) := by
  have h := (C1_load_recovery_amended
    { demoState with
        primary := DiskFile.corrupt
        backup := DiskFile.json (JsonVal.wellFormed [demoItem 7]) }).2.1 [demoItem 7] rfl rfl
  refine ⟨?_, h.2⟩
  rw [h.1]
  rfl

/-! ## Claim C7: cache validity and eviction age threshold -/

/-- Claim C7: `isValidCacheFile` holds exactly when the file exists with
`now - mtime <= maxAgeMs`, the eviction sweep keeps exactly the files with
`now - mtime <= maxAgeMs` (removing those strictly older) in each of the
three managed directories, a file one day past the threshold is removed, a
file one hour short of it is retained, and a file at exactly the threshold
is retained and still valid. -/
theorem C7_cache_age_boundary :
    (∀ fs now d p, isValidCacheFile fs now d p = true ↔
      ∃ m, fsGet fs p = some m ∧ now - m ≤ maxAgeMs d) ∧
    (∀ now d files (pr : String) (m : Int),
      (pr, m) ∈ cleanDir now d files ↔ (pr, m) ∈ files ∧ now - m ≤ maxAgeMs d) ∧
    (∀ now d dirs, cleanupCache now d dirs =
      { images := cleanDir now d dirs.images
        videos := cleanDir now d dirs.videos
        transcoded := cleanDir now d dirs.transcoded }) ∧
    (∀ now d (p : String),
      (p, now - maxAgeMs d - msPerDay) ∉ cleanDir now d [(p, now - maxAgeMs d - msPerDay)]) ∧
    (∀ now d (p : String),
      (p, now - maxAgeMs d + 3600000) ∈ cleanDir now d [(p, now - maxAgeMs d + 3600000)]) ∧
    (∀ now d (p : String),
      (p, now - maxAgeMs d) ∈ cleanDir now d [(p, now - maxAgeMs d)] ∧
      isValidCacheFile [(p, now - maxAgeMs d)] now d p = true) := by
  refine ⟨isValidCacheFile_iff, fun _ _ _ _ _ => mem_cleanDir, fun _ _ _ => rfl, ?_, ?_, ?_⟩
  · intro now d p
    rw [mem_cleanDir]
    rintro ⟨-, habs⟩
    simp only [maxAgeMs, msPerDay] at habs
    omega
  · intro now d p
    rw [mem_cleanDir]
    refine ⟨List.mem_singleton.mpr rfl, by omega⟩
  · intro now d p
    refine ⟨mem_cleanDir.mpr ⟨List.mem_singleton.mpr rfl, by omega⟩, ?_⟩
    rw [isValidCacheFile_iff]
    exact ⟨now - maxAgeMs d, by simp [fsGet], by omega⟩

/-! ## Claim C8: items-per-interval validation -/

/-- Claim C8, counterexample. The claim asserts that only integers at
least 1 are accepted; the code checks only `typeof count === 'number'` and
`count >= 1`, so the non-integer 3/2 is accepted and stored. -/
theorem C8_noninteger_count_accepted :
    (setImagesPerInterval demoState (JSVal.num ((3 : Rat)/2))).1 = true ∧
    (setImagesPerInterval demoState (JSVal.num ((3 : Rat)/2))).2.imagesPerInterval =
      (3 : Rat)/2 ∧
    (∀ n : Int, ((n : Rat) ≠ (3 : Rat)/2)) := by
  refine ⟨?_, ?_, ?_⟩
  · simp only [setImagesPerInterval]
    rw [if_neg (by norm_num)]
  · simp only [setImagesPerInterval]
    rw [if_neg (by norm_num)]
  · intro n h
    have h2 : ((2 * n : Int) : Rat) = ((3 : Int) : Rat) := by
      push_cast
      rw [h]
      ring
    have h3 : (2 * n : Int) = 3 := by exact_mod_cast h2
    omega

/-- Claim C8, amended: `setImagesPerInterval` accepts exactly the numeric
inputs that are at least 1 (integrality is not checked), storing the value
and returning true; every other input — a number below 1 or a non-number —
returns false and leaves the stored count unchanged. -/
theorem C8_setImagesPerInterval_amended (st : QMState) :
    (∀ q : Rat, 1 ≤ q →
      setImagesPerInterval st (JSVal.num q) = (true, { st with imagesPerInterval := q })) ∧
    (∀ q : Rat, q < 1 → setImagesPerInterval st (JSVal.num q) = (false, st)) ∧
    (∀ v : JSVal, (∀ q, v ≠ JSVal.num q) → setImagesPerInterval st v = (false, st)) := by
  refine ⟨fun q hq => ?_, fun q hq => ?_, fun v hv => ?_⟩
  · simp only [setImagesPerInterval]
    rw [if_neg (not_lt.mpr hq)]
  · simp only [setImagesPerInterval]
    rw [if_pos hq]
  · cases v with
    | num q => exact absurd rfl (hv q)
    | str s => rfl
    | boolean b => rfl
    | null => rfl
    | undef => rfl

/-- Claim C8, witness: a valid integer count is accepted, a non-number is
rejected without touching the state. -/
theorem C8_witness :
    setImagesPerInterval demoState (JSVal.num 2) =
      (true, { demoState with imagesPerInterval := 2 }) ∧
    setImagesPerInterval demoState (JSVal.str "x") = (false, demoState) :=
  ⟨(C8_setImagesPerInterval_amended demoState).1 2 (by norm_num),
   (C8_setImagesPerInterval_amended demoState).2.2 (JSVal.str "x")
     (fun _ h => JSVal.noConfusion h)⟩

/-! ## Claim C10: rejected cron schedule leaves the task stopped -/

/-- Claim C10: `setCronSchedule` stops any existing scheduled task before
validating; on an invalid expression it returns false, keeps the stored
schedule string unchanged, and leaves the previously running task stopped
without restarting it. -/
theorem C10_setCronSchedule_invalid_stops_task (validate : String → Bool) (st : QMState)
    (s : String) (h : validate s = false) :
    setCronSchedule validate st s =
      (false, { st with scheduledTask := st.scheduledTask.map (fun _ => false) }) ∧
    (setCronSchedule validate st s).2.cronSchedule = st.cronSchedule ∧
    (st.scheduledTask = some true →
      (setCronSchedule validate st s).2.scheduledTask = some false) := by
  have h1 : setCronSchedule validate st s =
      (false, { st with scheduledTask := st.scheduledTask.map (fun _ => false) }) := by
    simp [setCronSchedule, h]
  refine ⟨h1, by simp [h1], fun ht => by simp [h1, ht]⟩

/-- Claim C10, witness: a running task is stopped by a rejected schedule. -/
theorem C10_witness :
    setCronSchedule (fun _ => false) demoRunning "bad expr" =
      (false, { demoRunning with scheduledTask := some false }) := by
  have h := C10_setCronSchedule_invalid_stops_task (fun _ => false) demoRunning "bad expr" rfl
  exact h.1.trans (by decide)

/-! ## Claim C9: negative indices in removeFromQueue -/

/-- Claim C9: on a non-empty queue, a negative index passes the
`index >= length` guard, is handed to `splice`, and therefore removes and
returns exactly one item counted from the end (clamped at the front), with
the shortened queue persisted; in particular index `-1` removes the last
item. The call never returns `null` for a negative index. -/
theorem C9_removeFromQueue_negative (st : QMState) (n : Int)
    (hq : st.queue ≠ []) (hn : n < 0) :
    (removeFromQueue st n).1 = st.queue.get? (spliceStart st.queue.length n) ∧
    ((removeFromQueue st n).1).isSome = true ∧
    (removeFromQueue st n).2 =
      saveQueueToDisk { st with queue := st.queue.eraseIdx (spliceStart st.queue.length n) } ∧
    (n = -1 → (removeFromQueue st n).1 = some (st.queue.getLast hq)) := by
  have hlen : 1 ≤ st.queue.length := List.length_pos.mpr hq
  have hguard : ¬(st.queue.length = 0 ∨ (st.queue.length : Int) ≤ n) := by
    push_neg
    exact ⟨by omega, by omega⟩
  have hidx : spliceStart st.queue.length n < st.queue.length := by
    unfold spliceStart
    rw [if_pos hn]
    rcases le_or_lt ((st.queue.length : Int) + n) 0 with h | h
    · rw [max_eq_right h]
      simpa using hlen
    · rw [max_eq_left (le_of_lt h)]
      omega
  refine ⟨?_, ?_, ?_, ?_⟩
  · unfold removeFromQueue
    rw [if_neg hguard]
  · unfold removeFromQueue
    rw [if_neg hguard]
    show (st.queue.get? (spliceStart st.queue.length n)).isSome = true
    rw [List.get?_eq_get hidx]
    rfl
  · unfold removeFromQueue
    rw [if_neg hguard]
  · intro hn1
    subst hn1
    have hidx1 : spliceStart st.queue.length (-1) = st.queue.length - 1 := by
      unfold spliceStart
      rw [if_pos (by norm_num)]
      rw [max_eq_left (by omega)]
      omega
    unfold removeFromQueue
    rw [if_neg hguard]
    show st.queue.get? (spliceStart st.queue.length (-1)) = some (st.queue.getLast hq)
    rw [hidx1, List.getLast_eq_getElem, List.get?_eq_getElem?]
    exact List.getElem?_eq_getElem (by omega)

/-- Claim C9, witness: removing index `-1` from a two-item queue returns
the last item. -/
theorem C9_witness : (removeFromQueue demoQState (-1)).1 = some (demoItem 1) := by
  have h := C9_removeFromQueue_negative demoQState (-1) (by decide) (by decide)
  rw [h.2.2.2 rfl]
  decide

/-! ## Claim C2: delivery marking and removal -/

theorem lookupFlag_setFlag (m : List (String × Bool)) (s : String) :
    lookupFlag (setFlag m s) s = some true := by
  induction m with
  | nil => simp [setFlag, lookupFlag]
  | cons e rest ih =>
    by_cases he : (e.1 == s) = true
    · simp [setFlag, lookupFlag, he]
    · simp [setFlag, lookupFlag, he, ih]

theorem set_eraseIdx_same {α : Type} (l : List α) (i : Nat) (x : α) :
    (l.set i x).eraseIdx i = l.eraseIdx i := by
  induction l generalizing i with
  | nil => rfl
  | cons a t ih =>
    cases i with
    | zero => rfl
    | succ j => simp [List.set, List.eraseIdx, ih]

theorem markPosted_eq (services : List String) (st : QMState) (i : Nat) (service : String)
    (hi : i < st.queue.length) (hs : service ∈ services) (item : QueueItem)
    (hitem : st.queue.get? i = some item) :
    markPostedByService services st (i : Int) service =
      (true, saveQueueToDisk { st with queue :=
        (if allPostedB services { item with
            postedTo := some (setFlag (item.postedTo.getD []) service) } then
          (st.queue.set i { item with
            postedTo := some (setFlag (item.postedTo.getD []) service) }).eraseIdx i
        else st.queue.set i { item with
          postedTo := some (setFlag (item.postedTo.getD []) service) }) }) := by
  have hguard : ¬(st.queue.length = 0 ∨ (st.queue.length : Int) ≤ (i : Int)) := by
    push_neg
    exact ⟨by omega, by exact_mod_cast hi⟩
  unfold markPostedByService
  rw [if_neg hguard, if_pos hs, if_neg (by omega : ¬((i : Int) < 0)), Int.toNat_ofNat, hitem]
  set item2 : QueueItem :=
    { item with postedTo := some (setFlag (item.postedTo.getD []) service) } with hitem2
  cases hc : allPostedB services item2 <;> simp [hc]

/-- Claim C2: for an in-range index and a configured destination,
`markPostedByService` sets the destination flag of that item, removes the
item exactly when all configured destinations now read true (the queue
shrinks iff that holds), persists the result to the primary file, and
preserves the store invariant that every remaining item has some
destination still unmarked. -/
theorem C2_markPostedByService_correct (services : List String) (st : QMState)
    (i : Nat) (service : String) (hi : i < st.queue.length) (hs : service ∈ services) :
    markPostedByService services st (i : Int) service =
      (true, saveQueueToDisk { st with queue :=
        (if allPostedB services (itemAfterMark st i service) then st.queue.eraseIdx i
        else st.queue.set i (itemAfterMark st i service)) }) ∧
    lookupFlag ((itemAfterMark st i service).postedTo.getD []) service = some true ∧
    ((markPostedByService services st (i : Int) service).2.queue.length < st.queue.length ↔
      allPostedB services (itemAfterMark st i service) = true) ∧
    ((∀ it ∈ st.queue, allPostedB services it = false) →
      ∀ it ∈ (markPostedByService services st (i : Int) service).2.queue,
        allPostedB services it = false) ∧
    (markPostedByService services st (i : Int) service).2.primary =
      DiskFile.json
        (JsonVal.wellFormed (markPostedByService services st (i : Int) service).2.queue) := by
  obtain ⟨item, hitem⟩ : ∃ item, st.queue.get? i = some item := ⟨_, List.get?_eq_get hi⟩
  have hitem' : itemAfterMark st i service =
      { item with postedTo := some (setFlag (item.postedTo.getD []) service) } := by
    unfold itemAfterMark
    rw [hitem]
    rfl
  have hmain2 : markPostedByService services st (i : Int) service =
      (true, saveQueueToDisk { st with queue :=
        (if allPostedB services (itemAfterMark st i service) then st.queue.eraseIdx i
        else st.queue.set i (itemAfterMark st i service)) }) := by
    rw [markPosted_eq services st i service hi hs item hitem, hitem', set_eraseIdx_same]
  refine ⟨hmain2, ?_, ?_, ?_, ?_⟩
  · rw [hitem']
    exact lookupFlag_setFlag _ _
  · rw [hmain2]
    cases hc : allPostedB services (itemAfterMark st i service)
    · simp [saveQueueToDisk, hc, List.length_set]
    · simp [saveQueueToDisk, hc, List.length_eraseIdx_of_lt hi]
      omega
  · intro hinv it hit
    rw [hmain2] at hit
    simp only [saveQueueToDisk] at hit
    cases hc : allPostedB services (itemAfterMark st i service)
    · simp only [hc, Bool.false_eq_true, if_false] at hit
      rcases List.mem_or_eq_of_mem_set hit with h | h
      · exact hinv it h
      · rw [h]
        exact hc
    · simp only [hc, if_true] at hit
      exact hinv it ((List.eraseIdx_sublist _ _).subset hit)
  · rw [hmain2]
    rfl

/-- Claim C2, witness: marking the one missing destination of a
partially delivered item removes it from the queue and persists the empty
queue. -/
theorem C2_witness :
    markPostedByService ["telegram", "discord"] demoC2State 0 "telegram" =
      (true, saveQueueToDisk { demoC2State with queue := [] }) := by
  have h := (C2_markPostedByService_correct ["telegram", "discord"] demoC2State 0 "telegram"
    (by decide) (by decide)).1
  exact h.trans (by decide)

/-! ## Claim C5: scheduler tick backpressure -/

theorem runServices_no_success (allServices : List String)
    (posts : String → Option (QueueItem → Bool)) (item : QueueItem)
    (lst : List String) (st : QMState)
    (hfail : ∀ s ∈ lst, ∀ f, posts s = some f → f item = false) :
    runServices allServices posts item lst st = (st, false) := by
  induction lst with
  | nil => rfl
  | cons s rest ih =>
    have hrest : ∀ s2 ∈ rest, ∀ f, posts s2 = some f → f item = false :=
      fun s2 hs2 => hfail s2 (List.mem_cons_of_mem _ hs2)
    unfold runServices
    by_cases hp : hasBeenPostedByService st 0 s = true
    · simp [hp, ih hrest]
    · cases hps : posts s with
      | none => simp [hp, hps, ih hrest]
      | some f =>
        have hf : f item = false := hfail s (List.mem_cons_self _ _) f hps
        simp [hp, hps, hf, ih hrest]

/-- Claim C5: a scheduler tick with items-per-tick `n` processes at most
`n` front items, and when delivery yields no success for the front item
across all configured destinations (each destination is either skipped as
already posted, lacks a post function, or its post function fails), the
tick processes exactly that one item and stops with the queue state
untouched — it neither drains the batch nor skips to later items. -/
theorem C5_tick_backpressure (services : List String)
    (posts : String → Option (QueueItem → Bool)) (n : Nat) (st : QMState) :
    (schedulerTick services posts n st).2 ≤ n ∧
    (∀ item rest, st.queue = item :: rest →
      (∀ s ∈ services, ∀ f, posts s = some f → f item = false) →
      ∀ m : Nat, schedulerTick services posts (m + 1) st = (st, 1)) := by
  constructor
  · induction n generalizing st with
    | zero => simp [schedulerTick, tickLoop]
    | succ k ih =>
      unfold schedulerTick tickLoop
      cases hq : st.queue.get? 0 with
      | none => simp
      | some item =>
        dsimp only
        rcases hr : runServices services posts item services st with ⟨st2, ok⟩
        cases ok with
        | false => simp
        | true =>
          have hb := ih st2
          unfold schedulerTick at hb
          simp
          omega
  · intro item rest hqe hfail m
    unfold schedulerTick tickLoop
    have hq0 : st.queue.get? 0 = some item := by
      rw [hqe]
      rfl
    rw [hq0]
    have hrs := runServices_no_success services posts item services st hfail
    simp [hrs]

/-- Claim C5, witness: with one destination that always fails, a tick
configured for three items and a two-item queue processes one item and
leaves the queue unchanged. -/
theorem C5_witness : schedulerTick ["telegram"] demoPosts 3 demoQState = (demoQState, 1) := by
  have hfail : ∀ s ∈ ["telegram"], ∀ f, demoPosts s = some f → f (demoItem 0) = false := by
    intro s hs f hf
    have hs2 : s = "telegram" := by simpa using hs
    subst hs2
    have hval : demoPosts "telegram" = some (fun _ => false) := rfl
    rw [hval] at hf
    injection hf with hf2
    rw [← hf2]
  exact (C5_tick_backpressure ["telegram"] demoPosts 3 demoQState).2
    (demoItem 0) [demoItem 1] rfl hfail 2

/-! ## Claim C6: extension resolution refines the spec's table -/

/-- Claim C6: the resolver's extension result agrees everywhere with the
spec's resolution order — the locator's own (lowercased) extension when
longer than a bare dot, then the canonical content-type table, then the
`image/*` and `video/*` category fallbacks, then `.bin`. The right-hand
side is a function of the locator and content type alone, so the result is
independent of the video-classification heuristics. -/
theorem C6_extension_resolution :
    ∀ url ct, getFileExtension url ct = specResolveExtension url ct := by
  intro url ct
  simp only [getFileExtension, specResolveExtension]
  cases ct with
  | none => rfl
  | some c0 =>
    by_cases h1 : 1 < (lowerStr (jsExtname url)).length
    · rw [if_pos h1, if_pos h1]
    · rw [if_neg h1, if_neg h1]
      dsimp only
      by_cases h2 : lowerStr c0 = "image/jpeg"
      · simp [h2]
      · by_cases h3 : lowerStr c0 = "image/jpg"
        · rw [h3]
          decide
        · simp [h2, h3]

/-! ## Media cache helper lemmas -/

theorem fsGet_cons_self (fs : List (String × Int)) (p : String) (m : Int) :
    fsGet ((p, m) :: fs) p = some m := by
  simp [fsGet]

theorem fsGet_cons_ne (fs : List (String × Int)) (p q : String) (m : Int) (h : q ≠ p) :
    fsGet ((q, m) :: fs) p = fsGet fs p := by
  simp [fsGet, h]

theorem maxAgeMs_nonneg {maxD : Int} (hd : 0 ≤ maxD) : 0 ≤ maxAgeMs maxD := by
  simp only [maxAgeMs, msPerDay]
  exact mul_nonneg hd (by norm_num)

theorem isValidCacheFile_fresh (fs : List (String × Int)) (p : String) (now maxD : Int)
    (hd : 0 ≤ maxD) : isValidCacheFile ((p, now) :: fs) now maxD p = true := by
  rw [isValidCacheFile_iff]
  refine ⟨now, fsGet_cons_self fs p now, ?_⟩
  have := maxAgeMs_nonneg hd
  omega

theorem isValidCacheFile_cons_now (fs : List (String × Int)) (p q : String) (now maxD : Int)
    (hd : 0 ≤ maxD) (h : isValidCacheFile fs now maxD p = true) :
    isValidCacheFile ((q, now) :: fs) now maxD p = true := by
  by_cases hqp : q = p
  · subst hqp
    exact isValidCacheFile_fresh fs q now maxD hd
  · rw [isValidCacheFile_iff] at h ⊢
    obtain ⟨m, hm, hage⟩ := h
    exact ⟨m, by rw [fsGet_cons_ne fs p q now hqp, hm], hage⟩

theorem transcodeVideo_cached (env : NetEnv) (maxD now : Int) (fs : List (String × Int))
    (p : String) (hv : isValidCacheFile fs now maxD (transcodeOut p) = true) :
    transcodeVideo env maxD now fs p =
      (Except.ok (transcodeOut p), fs, { headReqs := 0, getReqs := 0, transcodeRuns := 0 }) := by
  simp only [transcodeVideo]
  rw [if_pos hv]

theorem transcodeVideo_ok (env : NetEnv) (maxD now : Int) (fs : List (String × Int))
    (p out : String) (fs2 : List (String × Int)) (t : Trace) (hd : 0 ≤ maxD)
    (h : transcodeVideo env maxD now fs p = (Except.ok out, fs2, t)) :
    out = transcodeOut p ∧ (fs2 = fs ∨ fs2 = (transcodeOut p, now) :: fs) ∧
    isValidCacheFile fs2 now maxD (transcodeOut p) = true ∧
    t.headReqs = 0 ∧ t.getReqs = 0 := by
  simp only [transcodeVideo] at h
  by_cases hv : isValidCacheFile fs now maxD (transcodeOut p) = true
  · rw [if_pos hv] at h
    simp only [Prod.mk.injEq, Except.ok.injEq] at h
    obtain ⟨h1, h2, h3⟩ := h
    subst h1 h2 h3
    exact ⟨rfl, Or.inl rfl, hv, rfl, rfl⟩
  · rw [if_neg hv] at h
    by_cases ht : env.transcodeOk p = true
    · rw [if_pos ht] at h
      simp only [Prod.mk.injEq, Except.ok.injEq] at h
      obtain ⟨h1, h2, h3⟩ := h
      subst h1 h2 h3
      exact ⟨rfl, Or.inr rfl, isValidCacheFile_fresh fs (transcodeOut p) now maxD hd, rfl, rfl⟩
    · rw [if_neg ht] at h
      simp at h

theorem downloadMedia_cached (hashFn : String → String) (env : NetEnv) (maxD now : Int)
    (fs' : List (String × Int)) (url : String) (hint : Bool)
    (hv : isValidCacheFile fs' now maxD (downloadTarget hashFn env url hint).filePath = true) :
    downloadMedia hashFn env maxD now fs' url hint =
      (Except.ok
        { filePath := (downloadTarget hashFn env url hint).filePath
          contentType := (downloadTarget hashFn env url hint).headCT
          isVideo := (downloadTarget hashFn env url hint).isVideo }, fs',
        { headReqs := (downloadTarget hashFn env url hint).headReqs, getReqs := 0,
          transcodeRuns := 0 }) := by
  simp only [downloadMedia]
  rw [if_pos hv]

theorem downloadMedia_ok (hashFn : String → String) (env : NetEnv) (maxD now : Int)
    (fs : List (String × Int)) (url : String) (hint : Bool) (r : DownloadResult)
    (fsd : List (String × Int)) (td : Trace) (hd : 0 ≤ maxD)
    (h : downloadMedia hashFn env maxD now fs url hint = (Except.ok r, fsd, td)) :
    r.filePath = (downloadTarget hashFn env url hint).filePath ∧
    r.isVideo = (downloadTarget hashFn env url hint).isVideo ∧
    (fsd = fs ∨ fsd = ((downloadTarget hashFn env url hint).filePath, now) :: fs) ∧
    isValidCacheFile fsd now maxD r.filePath = true ∧
    td.headReqs = (downloadTarget hashFn env url hint).headReqs ∧
    td.transcodeRuns = 0 := by
  simp only [downloadMedia] at h
  by_cases hv : isValidCacheFile fs now maxD (downloadTarget hashFn env url hint).filePath = true
  · rw [if_pos hv] at h
    simp only [Prod.mk.injEq, Except.ok.injEq] at h
    obtain ⟨h1, h2, h3⟩ := h
    subst h1 h2 h3
    exact ⟨rfl, rfl, Or.inl rfl, hv, rfl, rfl⟩
  · rw [if_neg hv] at h
    cases hg : env.getResult url with
    | failStart =>
      rw [hg] at h
      simp at h
    | stream gct ok =>
      rw [hg] at h
      cases ok with
      | false => simp at h
      | true =>
        simp only [Prod.mk.injEq, Except.ok.injEq, if_true] at h
        obtain ⟨h1, h2, h3⟩ := h
        subst h1 h2 h3
        refine ⟨rfl, rfl, Or.inr rfl, ?_, rfl, rfl⟩
        exact isValidCacheFile_fresh fs (downloadTarget hashFn env url hint).filePath now maxD hd

/-! ## Claim C4: failed download leaves an accepted partial file -/

/-- Claim C4, failing input. The spec requires that a failed download
leave no file a later `isValidCacheFile` check would accept. The code
opens the write stream at the final cache path and pipes the body into it,
so a GET body stream that starts and then errors (network drop or the
50 MB limit tripping mid-transfer) leaves the partially written file at
`images/h.png` with mtime `now` while `downloadMedia` rejects — and
`isValidCacheFile` accepts that partial file immediately afterwards. -/
theorem C4_partial_write_accepted_bug :
    downloadMedia (fun _ => "h") envStreamFail 15 1000 [] "a/b.png" false =
      (Except.error "Failed to download media", [("images/h.png", 1000)],
        { headReqs := 1, getReqs := 1, transcodeRuns := 0 }) ∧
    isValidCacheFile [("images/h.png", 1000)] 1000 15 "images/h.png" = true := by
  constructor
  · rfl
  · decide

/-! ## Claim C3: repeated processMediaUrl within the validity window -/

/-- Claim C3, counterexample. The claim asserts the second call performs
zero network requests. The HEAD probe runs before the cache check (the
content type is needed to compute the target path), so for a non-Bluesky
locator the second call still issues one probe: its trace counts one HEAD
request, not zero, even though the localPath is identical and no body
download happens. -/
theorem C3_second_call_still_probes :
    processMediaUrl (fun _ => "h") envOk 15 1000 [] "a/b.png" false =
      (Except.ok
          { localPath := "images/h.png", isVideo := false, contentType := some "image/png" },
        [("images/h.png", 1000)], { headReqs := 1, getReqs := 1, transcodeRuns := 0 }) ∧
    processMediaUrl (fun _ => "h") envOk 15 1000 [("images/h.png", 1000)] "a/b.png" false =
      (Except.ok
          { localPath := "images/h.png", isVideo := false, contentType := some "image/png" },
        [("images/h.png", 1000)], { headReqs := 1, getReqs := 0, transcodeRuns := 0 }) ∧
    (processMediaUrl (fun _ => "h") envOk 15 1000 [("images/h.png", 1000)] "a/b.png"
        false).2.2.headReqs ≠ 0 := by
  refine ⟨rfl, rfl, by decide⟩

/-- Claim C3, amended: with a fixed environment and a nonnegative cache
age limit, a second `processMediaUrl` call made on the state left by a
successful first call (within the validity window, modelled by the same
`now`) returns the identical localPath and video classification, leaves
the filesystem unchanged, performs no body download and no transcoding
run, and issues only the same number of content-type probes as the first
call (one for non-Bluesky locators, zero for Bluesky ones). -/
theorem C3_second_call_cached (hashFn : String → String) (env : NetEnv) (maxD now : Int)
    (fs : List (String × Int)) (url : String) (hint : Bool) (r : MediaResult)
    (fs1 : List (String × Int)) (t1 : Trace) (hd : 0 ≤ maxD)
    (h1 : processMediaUrl hashFn env maxD now fs url hint = (Except.ok r, fs1, t1)) :
    ∃ r2 t2, processMediaUrl hashFn env maxD now fs1 url hint = (Except.ok r2, fs1, t2) ∧
      r2.localPath = r.localPath ∧ r2.isVideo = r.isVideo ∧
      t2.getReqs = 0 ∧ t2.transcodeRuns = 0 ∧ t2.headReqs = t1.headReqs := by
  unfold processMediaUrl at h1
  rcases hdl : downloadMedia hashFn env maxD now fs url hint with ⟨res, fsd, td⟩
  rw [hdl] at h1
  cases res with
  | error e => simp at h1
  | ok rd =>
    obtain ⟨hfp, hiv, hfsc, hvalid, hhead, htrz⟩ :=
      downloadMedia_ok hashFn env maxD now fs url hint rd fsd td hd hdl
    dsimp only at h1
    cases hrv : rd.isVideo with
    | false =>
      rw [hrv] at h1
      simp only [Bool.false_eq_true, if_false, Prod.mk.injEq, Except.ok.injEq] at h1
      obtain ⟨hr1, hfs1, ht1⟩ := h1
      subst hfs1
      subst ht1
      have hv2 : isValidCacheFile fsd now maxD
          (downloadTarget hashFn env url hint).filePath = true := by
        rw [← hfp]
        exact hvalid
      have hivF : (downloadTarget hashFn env url hint).isVideo = false := by
        rw [← hiv]
        exact hrv
      have hcall2 : processMediaUrl hashFn env maxD now fsd url hint =
          (Except.ok
              { localPath := (downloadTarget hashFn env url hint).filePath
                isVideo := false
                contentType := (downloadTarget hashFn env url hint).headCT },
            fsd,
            { headReqs := (downloadTarget hashFn env url hint).headReqs, getReqs := 0,
              transcodeRuns := 0 }) := by
        unfold processMediaUrl
        rw [downloadMedia_cached hashFn env maxD now fsd url hint hv2]
        simp [hivF]
      refine ⟨_, _, hcall2, ?_, ?_, rfl, rfl, ?_⟩
      · rw [← hr1, ← hfp]
      · rw [← hr1]
      · exact hhead.symm
    | true =>
      rw [hrv] at h1
      simp only [if_true] at h1
      rcases htc : transcodeVideo env maxD now fsd rd.filePath with ⟨tres, fs2, t2d⟩
      rw [htc] at h1
      cases tres with
      | error e => simp at h1
      | ok outp =>
        simp only [Prod.mk.injEq, Except.ok.injEq] at h1
        obtain ⟨hr1, hfs1, ht1⟩ := h1
        subst hfs1
        subst ht1
        obtain ⟨hout, hfs2c, htval, hth, _⟩ :=
          transcodeVideo_ok env maxD now fsd rd.filePath outp fs2 t2d hd htc
        have hval2 : isValidCacheFile fs2 now maxD rd.filePath = true := by
          rcases hfs2c with hcase | hcase
          · rw [hcase]
            exact hvalid
          · rw [hcase]
            exact isValidCacheFile_cons_now fsd rd.filePath (transcodeOut rd.filePath)
              now maxD hd hvalid
        have hv2 : isValidCacheFile fs2 now maxD
            (downloadTarget hashFn env url hint).filePath = true := by
          rw [← hfp]
          exact hval2
        have hivT : (downloadTarget hashFn env url hint).isVideo = true := by
          rw [← hiv]
          exact hrv
        have hcall2 : processMediaUrl hashFn env maxD now fs2 url hint =
            (Except.ok
                { localPath := transcodeOut rd.filePath
                  isVideo := true
                  contentType := (downloadTarget hashFn env url hint).headCT },
              fs2,
              Trace.add
                { headReqs := (downloadTarget hashFn env url hint).headReqs, getReqs := 0,
                  transcodeRuns := 0 }
                { headReqs := 0, getReqs := 0, transcodeRuns := 0 }) := by
          unfold processMediaUrl
          rw [downloadMedia_cached hashFn env maxD now fs2 url hint hv2]
          simp only [hivT, if_true]
          rw [show (downloadTarget hashFn env url hint).filePath = rd.filePath from hfp.symm]
          rw [transcodeVideo_cached env maxD now fs2 rd.filePath htval]
        refine ⟨_, _, hcall2, ?_, ?_, rfl, rfl, ?_⟩
        · rw [← hr1, hout]
        · rw [← hr1]
        · simp only [Trace.add]
          rw [hhead, hth]

/-- Claim C3, witness: the amended theorem applied to the concrete image
download of the counterexample's environment. -/
theorem C3_witness :
    ∃ r2 t2,
      processMediaUrl (fun _ => "h") envOk 15 1000 [("images/h.png", 1000)] "a/b.png" false =
        (Except.ok r2, [("images/h.png", 1000)], t2) ∧
      r2.localPath = "images/h.png" ∧ t2.getReqs = 0 ∧ t2.transcodeRuns = 0 := by
  obtain ⟨r2, t2, hcall, hlp, hivq, hg, ht, hh⟩ :=
    C3_second_call_cached (fun _ => "h") envOk 15 1000 [] "a/b.png" false
      { localPath := "images/h.png", isVideo := false, contentType := some "image/png" }
      [("images/h.png", 1000)] { headReqs := 1, getReqs := 1, transcodeRuns := 0 }
      (by norm_num) rfl
  exact ⟨r2, t2, hcall, by rw [hlp], hg, ht⟩

end Stagehand
